import Mathlib

/-!
Verification of the navigation and template services of the
googledocs-mkdocs-automation repository.

The Python sources `app/services/navigation_manager.py` and
`app/services/template_engine.py` are shallowly embedded below.  Python
strings are modelled as `List Char`; the ASCII fragment of the Python
regular expression classes is used (`\w` is modelled as ASCII
alphanumeric plus underscore, `\s` as the six ASCII whitespace
characters, `str.lower` as ASCII lowercasing).  All document inputs the
theorems quantify over are arbitrary character lists; the ASCII
modelling is noted where it matters.
-/

/-- ASCII model of the Python whitespace class used by `str.strip` and
the regex class `\s`: space, tab, newline, carriage return, vertical
tab and form feed. -/
def isPySpace (c : Char) : Bool :=
  c = ' ' || c = '\t' || c = '\n' || c = '\r' || c = '\x0b' || c = '\x0c'

/-- Python `str.strip()`: remove leading and trailing whitespace. -/
def pyStrip (l : List Char) : List Char :=
  ((l.dropWhile isPySpace).reverse.dropWhile isPySpace).reverse

/-- Python `str.split('\n')`: split on every newline, keeping empty
pieces; the result is always non-empty. -/
def splitOnNl : List Char → List (List Char)
  | [] => [[]]
  | c :: cs =>
    if c = '\n' then [] :: splitOnNl cs
    else
      match splitOnNl cs with
      | [] => [[c]]
      | l :: ls => (c :: l) :: ls

/-- Python `str.startswith`: `startsWithL pre l` is true when `pre` is a
prefix of `l`. -/
def startsWithL : List Char → List Char → Bool
  | [], _ => true
  | _ :: _, [] => false
  | a :: as, b :: bs => a = b && startsWithL as bs

/-- Python substring containment `needle in hay`. -/
def subList (needle : List Char) : List Char → Bool
  | [] => needle.isEmpty
  | c :: cs => startsWithL needle (c :: cs) || subList needle cs

/-- Python `str.endswith`: `endsWithL suf l` is true when `suf` is a
suffix of `l`. -/
def endsWithL (suf l : List Char) : Bool :=
  startsWithL suf.reverse l.reverse

/-- ASCII model of the Python regex class `\w`: alphanumeric or
underscore. -/
def isWordChar (c : Char) : Bool :=
  c.isAlpha || c.isDigit || c = '_'

/-- The match of Python `re.match(r'^(#+)\s+(.+)$', line)` used by
`NavigationManager._parse_content`: `some (len(group(1)), group(2))`
when the line matches, `none` otherwise.  The greedy/backtracking
semantics of the regex engine are reproduced: `#+` takes every leading
hash, `\s+` then needs at least one whitespace character, and `(.+)`
takes the rest after the maximal whitespace run, backtracking one
whitespace character when the rest would otherwise be empty. -/
def pyHeadingMatch (l : List Char) : Option (Nat × List Char) :=
  let k := (l.takeWhile (fun c => c = '#')).length
  if k = 0 then none
  else
    let r := l.drop k
    match r with
    | [] => none
    | c :: _ =>
      if isPySpace c then
        let t := r.dropWhile isPySpace
        if t.isEmpty then
          if 2 ≤ r.length then some (k, [r.getLastD ' ']) else none
        else some (k, t)
      else none

/-- The match of Python `re.match(r'^(#{1,6})\s*(.+)$', line)` used by
`NavigationManager._extract_metadata`, again with the exact
greedy/backtracking semantics: `#{1,6}` takes at most six leading
hashes, `\s*` may be empty, `(.+)` must be non-empty, and on failure
the engine backtracks first on `\s*` and then on `#{1,6}`. -/
def pyMetaHeadingMatch (l : List Char) : Option (Nat × List Char) :=
  let k := (l.takeWhile (fun c => c = '#')).length
  if k = 0 then none
  else if 6 < k then some (6, l.drop 6)
  else
    let r := l.drop k
    match r with
    | [] => if 2 ≤ k then some (k - 1, ['#']) else none
    | _ :: _ =>
      let t := r.dropWhile isPySpace
      if t.isEmpty then some (k, [r.getLastD ' '])
      else some (k, t)

/-- The title clean-up inside `_parse_content`: titles longer than 100
characters are cut at the first occurrence of the first applicable
break point among ".", "!", "?", "\n", and hard-truncated to 100
characters when still too long. -/
def truncateTitle (t : List Char) : List Char :=
  if 100 < t.length then
    let t1 :=
      if t.contains '.' then pyStrip (t.takeWhile (fun c => c ≠ '.'))
      else if t.contains '!' then pyStrip (t.takeWhile (fun c => c ≠ '!'))
      else if t.contains '?' then pyStrip (t.takeWhile (fun c => c ≠ '?'))
      else if t.contains '\n' then pyStrip (t.takeWhile (fun c => c ≠ '\n'))
      else t
    if 100 < t1.length then pyStrip (t1.take 100) else t1
  else t

/-- One pass of `re.sub(r'[-\s]+', '-', clean)`: every maximal run of
hyphens and whitespace becomes a single hyphen.  The boolean records
whether the previous character belonged to such a run. -/
def collapseHyphens : Bool → List Char → List Char
  | _, [] => []
  | prev, c :: cs =>
    if c = '-' || isPySpace c then
      if prev then collapseHyphens true cs else '-' :: collapseHyphens true cs
    else c :: collapseHyphens false cs

/-- Python `str.strip('-')`. -/
def stripDashes (l : List Char) : List Char :=
  ((l.dropWhile (fun c => c = '-')).reverse.dropWhile (fun c => c = '-')).reverse

/-- `NavigationManager._clean_filename`: drop characters outside
`[\w\s-]`, collapse runs of hyphens and whitespace to one hyphen, strip
hyphens at both ends, lowercase, and default to "section" when empty. -/
def cleanFilename (title : List Char) : List Char :=
  let c1 := title.filter (fun c => isWordChar c || isPySpace c || c = '-')
  let c2 := collapseHyphens false c1
  let c3 := (stripDashes c2).map Char.toLower
  if c3.isEmpty then "section".toList else c3

/-- The `clean_title` computation at the top of
`_generate_file_path`: strip, keep only the first line, truncate to 50
characters. -/
def gfpCleanTitle (title : List Char) : List Char :=
  let ct := pyStrip title
  let ct := if ct.contains '\n' then ct.takeWhile (fun c => c ≠ '\n') else ct
  if 50 < ct.length then pyStrip (ct.take 50) else ct

/-- `NavigationManager._generate_file_path`.  The `template` argument is
accepted and ignored exactly as in the source; the level-2 branch and
the deeper-level branch of the source are textually identical and are
merged here. -/
def generateFilePath (title : List Char) (level : Nat) (template : List Char) : List Char :=
  let filename := cleanFilename (gfpCleanTitle title)
  let filename := if endsWithL (".md".toList) filename then filename else filename ++ (".md".toList)
  if level = 1 then filename
  else
    let cleanParent := cleanFilename ((title.takeWhile (fun c => c ≠ '\n')).take 30)
    cleanParent ++ ('/' :: filename)

/-- The `NavigationSection` dataclass.  The `children` and `metadata`
fields are omitted: `_parse_content` always sets them to the empty list
and the empty dict, and no code path under verification reads them. -/
structure NavigationSection where
  title : List Char
  level : Nat
  content : List Char
  file_path : List Char
deriving DecidableEq

/-- Closing a section in `_parse_content`: the accumulated lines are
newline-joined and stripped as a whole. -/
def closeSection (s : NavigationSection) (acc : List (List Char)) : NavigationSection :=
  { s with content := pyStrip (List.intercalate ['\n'] acc) }

/-- Opening a section in `_parse_content` from a heading match. -/
def newSection (k : Nat) (rawTitle : List Char) : NavigationSection :=
  let title := truncateTitle (pyStrip rawTitle)
  { title := title, level := k, content := [],
    file_path := generateFilePath title k ("standard_docs".toList) }

/-- The line loop of `_parse_content`: each line is stripped, blank
lines are skipped, a heading line closes the open section and opens a
new one, and any other line is appended (stripped) to the open
section's buffer; lines before the first heading are discarded. -/
def parseLines : List (List Char) → Option NavigationSection → List (List Char) → List NavigationSection
  | [], none, _ => []
  | [], some cur, acc => [closeSection cur acc]
  | l :: ls, cur, acc =>
    let l' := pyStrip l
    if l'.isEmpty then parseLines ls cur acc
    else
      match pyHeadingMatch l' with
      | some (k, rawTitle) =>
        match cur with
        | none => parseLines ls (some (newSection k rawTitle)) []
        | some c => closeSection c acc :: parseLines ls (some (newSection k rawTitle)) []
      | none =>
        match cur with
        | none => parseLines ls none acc
        | some c => parseLines ls (some c) (acc ++ [l'])

/-- `NavigationManager._parse_content`. -/
def parseContent (text : List Char) : List NavigationSection :=
  parseLines (splitOnNl text) none []

/-- The space-joined concatenation of the lowercased section titles
built inside `_suggest_template`. -/
def joinedTitles (sections : List NavigationSection) : List Char :=
  List.intercalate [' '] (sections.map (fun s => s.title.map Char.toLower))

/-- `NavigationManager._suggest_template`. -/
def suggestTemplate (sections : List NavigationSection) : List Char :=
  if ["api".toList, "reference".toList, "technical".toList, "code".toList].any
      (fun w => subList w (joinedTitles sections)) then "technical_docs".toList
  else if ["team".toList, "process".toList, "project".toList, "goals".toList].any
      (fun w => subList w (joinedTitles sections)) then "project_docs".toList
  else "standard_docs".toList

/-- The metadata dict built by `_extract_metadata`. -/
structure DocMetadata where
  total_sections : Nat
  max_depth : Nat
  estimated_pages : Nat
deriving DecidableEq

/-- `NavigationManager._extract_metadata`. -/
def extractMetadata (content : List Char) : DocMetadata :=
  let counts := (splitOnNl content).foldl
    (fun (p : Nat × Nat) l =>
      match pyMetaHeadingMatch (pyStrip l) with
      | some (g, _) => (p.1 + 1, max p.2 g)
      | none => p) (0, 0)
  { total_sections := counts.1, max_depth := counts.2,
    estimated_pages := max 1 (counts.1 / 3) }

/-- The break-point scan of `_identify_main_sections` for over-long
titles: first applicable among ".", "!", "?", ":", ";". -/
def breakAtPunct (t : List Char) : List Char :=
  if t.contains '.' then pyStrip (t.takeWhile (fun c => c ≠ '.'))
  else if t.contains '!' then pyStrip (t.takeWhile (fun c => c ≠ '!'))
  else if t.contains '?' then pyStrip (t.takeWhile (fun c => c ≠ '?'))
  else if t.contains ':' then pyStrip (t.takeWhile (fun c => c ≠ ':'))
  else if t.contains ';' then pyStrip (t.takeWhile (fun c => c ≠ ';'))
  else t

/-- The level-1 rebuilding loop of `_identify_main_sections`. -/
def rebuildLevelOne (s : NavigationSection) : NavigationSection :=
  let ct := pyStrip s.title
  let ct := if ct.contains '\n' then ct.takeWhile (fun c => c ≠ '\n') else ct
  let ct := if 100 < ct.length then breakAtPunct ct else ct
  { title := ct, level := 1, content := s.content,
    file_path := generateFilePath ct 1 ("standard_docs".toList) }

/-- The blacklist of process/narrative words of
`_identify_main_sections`. -/
def narrativeWords : List (List Char) :=
  ["how".toList, "what".toList, "when".toList, "where".toList, "why".toList,
   "guide".toList, "flow".toList, "tracking".toList, "compensation".toList]

/-- The content-analysis heuristic of `_identify_main_sections`: a
section whose stripped title is under 50 characters and whose lowercased
title contains none of the narrative words becomes a synthetic level-1
page. -/
def heuristicMain (s : NavigationSection) : Option NavigationSection :=
  let st := pyStrip s.title
  if st.length < 50 && !(narrativeWords.any (fun w => subList w (st.map Char.toLower))) then
    let ct := if st.contains '\n' then st.takeWhile (fun c => c ≠ '\n') else st
    some { title := ct, level := 1, content := s.content,
           file_path := generateFilePath ct 1 ("standard_docs".toList) }
  else none

/-- `NavigationManager._identify_main_sections`. -/
def identifyMainSections (sections : List NavigationSection) : List NavigationSection :=
  let ms := sections.filterMap (fun s => if s.level = 1 then some (rebuildLevelOne s) else none)
  if ms.isEmpty then sections.filterMap heuristicMain else ms

/-- One emitted navigation line of `generate_mkdocs_navigation`. -/
def navLine (s : NavigationSection) : List Char :=
  "  - ".toList ++ s.title ++ (':' :: ' ' :: []) ++ s.file_path

/-- `NavigationManager.generate_mkdocs_navigation` (the sections list of
the analyzed structure is passed directly). -/
def generateMkdocsNavigation (sections : List NavigationSection) : List Char :=
  let ms := sections.filter (fun s => s.level = 1)
  let ms := if ms.isEmpty then identifyMainSections sections else ms
  List.intercalate ['\n'] ("nav:".toList :: ms.map navLine)

/-- The validation dict built by `validate_navigation`. -/
structure ValidationResult where
  is_valid : Bool
  errors : List (List Char)
  warnings : List (List Char)
  suggestions : List (List Char)
deriving DecidableEq

/-- Decimal rendering of a line number for a warning message. -/
def natDigits (n : Nat) : List Char := Nat.toDigits 10 n

/-- The indentation-warning loop of `validate_navigation` over
`lines[1:]`; the counter starts at 2 because Python enumerates from 1
and prints `i+1`. -/
def indentWarnings : Nat → List (List Char) → List (List Char)
  | _, [] => []
  | i, l :: ls =>
    let rest := indentWarnings (i + 1) ls
    if !(pyStrip l).isEmpty && !startsWithL ("  ".toList) l then
      ("Line ".toList ++ natDigits i ++ ": Inconsistent indentation".toList) :: rest
    else rest

/-- `NavigationManager.validate_navigation`.  The function never raises:
every Python operation in its body is total on string input, and the
enclosing try/except would turn an exception into an error entry
anyway. -/
def validateNavigation (navigation_yaml : List Char) : ValidationResult :=
  let lines := splitOnNl navigation_yaml
  let first := lines.headD []
  let v0 : ValidationResult := { is_valid := true, errors := [], warnings := [], suggestions := [] }
  let v1 := if startsWithL ("nav:".toList) (pyStrip first) then v0
            else { v0 with
                   is_valid := false
                   errors := ["Navigation must start with \x27nav:\x27".toList] }
  let rest := lines.tail
  let warns := indentWarnings 2 rest
  let entries := (rest.map pyStrip).filter (fun l => !l.isEmpty)
  let dupWarn := if entries.length ≠ entries.dedup.length
                 then ["Duplicate navigation entries detected".toList] else []
  let sugg := rest.filterMap (fun line =>
    if subList (".md".toList) line && !endsWithL (".md".toList) (pyStrip line) then
      some ("Consider using .md extension for all files".toList)
    else none)
  { v1 with warnings := warns ++ dupWarn, suggestions := sugg }

/-! ## Template engine -/

/-- Abstraction of a template dict for `TemplateEngine`:
`_validate_template` inspects only which keys are present in the dict,
in its "structure" and "formatting" sub-dicts, and whether the
"sections" value is a list, so a template is modelled by exactly those
observations. -/
structure TemplateData where
  topKeys : List (List Char)
  structureKeys : List (List Char)
  sectionsIsList : Bool
  formattingKeys : List (List Char)
deriving DecidableEq

/-- The required top-level keys of `_validate_template`. -/
def requiredTemplateKeys : List (List Char) :=
  ["name".toList, "description".toList, "structure".toList, "sections".toList, "formatting".toList]

/-- The required "structure" sub-keys of `_validate_template`. -/
def requiredStructureKeys : List (List Char) :=
  ["frontmatter".toList, "toc".toList, "breadcrumbs".toList, "edit_uri".toList]

/-- The required "formatting" sub-keys of `_validate_template`. -/
def requiredFormattingKeys : List (List Char) :=
  ["heading_style".toList, "code_blocks".toList, "admonitions".toList, "tables".toList]

/-- `TemplateEngine._validate_template`. -/
def validateTemplate (t : TemplateData) : Bool :=
  requiredTemplateKeys.all (fun k => t.topKeys.contains k) &&
  requiredStructureKeys.all (fun k => t.structureKeys.contains k) &&
  t.sectionsIsList &&
  requiredFormattingKeys.all (fun k => t.formattingKeys.contains k)

/-- The `TemplateEngine` state: the default templates and the custom
templates, each an insertion-ordered association list modelling a
Python dict. -/
structure TemplateEngine where
  templates : List (List Char × TemplateData)
  custom_templates : List (List Char × TemplateData)
deriving DecidableEq

/-- The key-set observation of the "standard_docs" default template
(also that of "project_docs" and "minimal", which carry the same key
sets). -/
def standardDocsTemplate : TemplateData :=
  ⟨requiredTemplateKeys, requiredStructureKeys, true, requiredFormattingKeys⟩

/-- The key-set observation of the "technical_docs" default template. -/
def technicalDocsTemplate : TemplateData :=
  ⟨requiredTemplateKeys, requiredStructureKeys ++ ["search".toList], true,
   requiredFormattingKeys ++ ["syntax_highlighting".toList]⟩

/-- The engine as built by `TemplateEngine.__init__`. -/
def defaultTemplateEngine : TemplateEngine :=
  ⟨[("standard_docs".toList, standardDocsTemplate),
    ("technical_docs".toList, technicalDocsTemplate),
    ("project_docs".toList, standardDocsTemplate),
    ("minimal".toList, standardDocsTemplate)], []⟩

/-- Python dict assignment `d[name] = t` on an association list:
replace the first binding of the key, else append. -/
def assocSet : List (List Char × TemplateData) → List Char → TemplateData → List (List Char × TemplateData)
  | [], n, t => [(n, t)]
  | (k, v) :: rest, n, t =>
    if k == n then (k, t) :: rest else (k, v) :: assocSet rest n t

/-- `TemplateEngine.create_custom_template`: the returned boolean is the
Python return value; for a dict-shaped argument (the domain of this
model) the function returns rather than raises. -/
def createCustomTemplate (e : TemplateEngine) (name : List Char) (t : TemplateData) :
    TemplateEngine × Bool :=
  if validateTemplate t then
    ({ e with custom_templates := assocSet e.custom_templates name t }, true)
  else (e, false)

/-- `TemplateEngine.get_template`. -/
def getTemplate (e : TemplateEngine) (name : List Char) : TemplateData :=
  match e.custom_templates.lookup name with
  | some t => t
  | none =>
    match e.templates.lookup name with
    | some t => t
    | none => standardDocsTemplate

/-! ## Specification-side definitions used to state the claims -/

/-- A line that does not start a new section in `_parse_content`: blank
after stripping, or not matching the heading regex. -/
def nonStart (l : List Char) : Bool := (pyHeadingMatch (pyStrip l)).isNone

/-- The stripped, non-blank lines of a segment before the next section
start. -/
def segLines (ls : List (List Char)) : List (List Char) :=
  ((ls.takeWhile nonStart).map pyStrip).filter (fun l => !l.isEmpty)

/-- Reference formulation of the per-section contents produced by the
parse loop: drop everything before the first heading line, then for each
heading emit the newline-join of the stripped non-blank non-heading
lines that follow it, stripped as a whole. -/
def bodies : List (List Char) → List (List Char)
  | [] => []
  | l :: ls =>
    if nonStart l then bodies ls
    else pyStrip (List.intercalate ['\n'] (segLines ls)) :: bodies (ls.dropWhile nonStart)
termination_by ls => ls.length
decreasing_by
  · simp
  · exact Nat.lt_succ_of_le (List.dropWhile_sublist nonStart).length_le

/-- The heading levels read off the raw lines by the `_parse_content`
regex, in order. -/
def headingLevels (ls : List (List Char)) : List Nat :=
  ls.filterMap (fun l => (pyHeadingMatch (pyStrip l)).map Prod.fst)

/-- The character set the claim about `_generate_file_path` allows
before the ".md" extension: lowercase ASCII letters, digits and
hyphen. -/
def claimedSlugChar (c : Char) : Bool :=
  ('a' ≤ c && c ≤ 'z') || ('0' ≤ c && c ≤ '9') || c = '-'

/-- The character set the slug portion actually ranges over: the claimed
set plus the underscore, which the Python class `\w` retains. -/
def amendedSlugChar (c : Char) : Bool :=
  claimedSlugChar c || c = '_'

/-- The synthetic-page condition of the claim about
`generate_mkdocs_navigation`: title under 50 characters and free of the
narrative words, case-insensitively. -/
def claimSyntheticPage (s : NavigationSection) : Bool :=
  decide (s.title.length < 50) &&
  !(narrativeWords.any (fun w => subList w (s.title.map Char.toLower)))

/-- The first non-empty line of a text, as named by the claim about
`validate_navigation`. -/
def firstNonBlankLine (tx : List Char) : List Char :=
  (((splitOnNl tx).filter (fun l => !(pyStrip l).isEmpty)).headD [])

/-! ## Helper lemmas -/

theorem dropWhile_head?_false {p : Char → Bool} {l : List Char} {c : Char}
    (h : (List.dropWhile p l).head? = some c) : p c = false := by
  induction l with
  | nil => simp [List.dropWhile] at h
  | cons a as ih =>
    rw [List.dropWhile_cons] at h
    split at h
    · exact ih h
    · next hpa =>
      simp at h
      subst h
      simp only [Bool.not_eq_true] at hpa
      exact hpa

theorem getLast?_dropWhile_eq {p : Char → Bool} {l : List Char}
    (h : List.dropWhile p l ≠ []) : (List.dropWhile p l).getLast? = l.getLast? := by
  induction l with
  | nil => simp [List.dropWhile] at h
  | cons a as ih =>
    rw [List.dropWhile_cons] at h ⊢
    split at h
    · next hpa =>
      rw [if_pos hpa]
      have has : as ≠ [] := by
        intro hnil
        apply h
        simp [hnil, List.dropWhile]
      rw [ih h]
      cases as with
      | nil => exact absurd rfl has
      | cons b bs => rw [List.getLast?_cons_cons]
    · next hpa => rw [if_neg hpa]

theorem dropWhile_eq_self_of_head? {p : Char → Bool} {l : List Char}
    (h : ∀ c, l.head? = some c → p c = false) : List.dropWhile p l = l := by
  cases l with
  | nil => simp [List.dropWhile]
  | cons a as =>
    rw [List.dropWhile_cons, if_neg]
    simp [h a rfl]

theorem dropWhile_idem (p : Char → Bool) (l : List Char) :
    List.dropWhile p (List.dropWhile p l) = List.dropWhile p l := by
  apply dropWhile_eq_self_of_head?
  intro c hc
  exact dropWhile_head?_false hc

theorem pyStrip_idem (l : List Char) : pyStrip (pyStrip l) = pyStrip l := by
  have h1 : List.dropWhile isPySpace (pyStrip l) = pyStrip l := by
    apply dropWhile_eq_self_of_head?
    intro c hc
    unfold pyStrip at hc
    by_cases hw : List.dropWhile isPySpace (List.dropWhile isPySpace l).reverse = []
    · rw [hw] at hc; simp at hc
    · rw [List.head?_reverse, getLast?_dropWhile_eq hw, List.getLast?_reverse] at hc
      exact dropWhile_head?_false hc
  show ((List.dropWhile isPySpace (pyStrip l)).reverse.dropWhile isPySpace).reverse = pyStrip l
  rw [h1]
  show ((((List.dropWhile isPySpace l).reverse.dropWhile isPySpace).reverse).reverse.dropWhile isPySpace).reverse = _
  rw [List.reverse_reverse, dropWhile_idem]
  rfl

theorem mem_pyStrip {c : Char} {l : List Char} (h : c ∈ pyStrip l) : c ∈ l := by
  unfold pyStrip at h
  rw [List.mem_reverse] at h
  have h2 := (List.dropWhile_sublist (l := (List.dropWhile isPySpace l).reverse) isPySpace).mem h
  rw [List.mem_reverse] at h2
  exact (List.dropWhile_sublist isPySpace).mem h2

theorem length_pyStrip_le (l : List Char) : (pyStrip l).length ≤ l.length := by
  unfold pyStrip
  rw [List.length_reverse]
  calc ((List.dropWhile isPySpace l).reverse.dropWhile isPySpace).length
      ≤ (List.dropWhile isPySpace l).reverse.length :=
        (List.dropWhile_sublist isPySpace).length_le
    _ ≤ l.length := by
        rw [List.length_reverse]
        exact (List.dropWhile_sublist isPySpace).length_le

theorem pyHeadingMatch_nil : pyHeadingMatch [] = none := by
  simp [pyHeadingMatch]

theorem pyHeadingMatch_pos {l : List Char} {k : Nat} {t : List Char}
    (h : pyHeadingMatch l = some (k, t)) : 1 ≤ k := by
  dsimp only [pyHeadingMatch] at h
  split at h
  · exact absurd h (by simp)
  · next hk =>
    split at h
    · exact absurd h (by simp)
    · split at h
      · split at h
        · split at h
          · simp at h
            omega
          · exact absurd h (by simp)
        · simp at h
          omega
      · exact absurd h (by simp)

theorem mem_getLastD (l : List Char) (d : Char) : l.getLastD d = d ∨ l.getLastD d ∈ l := by
  induction l with
  | nil => left; rfl
  | cons a as ih =>
    cases as with
    | nil => right; simp [List.getLastD]
    | cons b bs =>
      rcases ih with h | h
      · left; rw [← h]; rfl
      · right
        have : (a :: b :: bs).getLastD d = (b :: bs).getLastD d := rfl
        rw [this]
        exact List.mem_cons_of_mem a h

theorem getLastD_elim {P : Char → Prop} (l : List Char) (d : Char)
    (h1 : ∀ x ∈ l, P x) (h2 : P d) : P (l.getLastD d) := by
  rcases mem_getLastD l d with h | h
  · rw [h]; exact h2
  · exact h1 _ h

theorem pyHeadingMatch_mem {l : List Char} {k : Nat} {t : List Char}
    (h : pyHeadingMatch l = some (k, t)) : ∀ c ∈ t, c ∈ l ∨ c = ' ' := by
  have hdrop : ∀ c ∈ l.drop ((l.takeWhile (fun c => c = '#')).length), c ∈ l :=
    fun c hc => (List.drop_sublist _ _).mem hc
  dsimp only [pyHeadingMatch] at h
  split at h
  · exact absurd h (by simp)
  · split at h
    · exact absurd h (by simp)
    · split at h
      · split at h
        · split at h
          · simp only [Option.some.injEq, Prod.mk.injEq] at h
            intro c hc
            rw [← h.2] at hc
            simp only [List.mem_singleton] at hc
            rw [hc]
            exact @getLastD_elim (fun x => x ∈ l ∨ x = ' ') _ ' ' (fun x hx => Or.inl (hdrop x hx)) (Or.inr rfl)
          · exact absurd h (by simp)
        · simp only [Option.some.injEq, Prod.mk.injEq] at h
          intro c hc
          rw [← h.2] at hc
          exact Or.inl (hdrop c ((List.dropWhile_sublist isPySpace).mem hc))
      · exact absurd h (by simp)

theorem pyHeadingMatch_no_nl {l : List Char} {k : Nat} {t : List Char}
    (h : pyHeadingMatch l = some (k, t)) (hnl : '\n' ∉ l) : '\n' ∉ t := by
  intro hmem
  rcases pyHeadingMatch_mem h '\n' hmem with hc | hc
  · exact hnl hc
  · exact absurd hc (by decide)

theorem truncateTitle_length_le (t : List Char) : (truncateTitle t).length ≤ 100 := by
  unfold truncateTitle
  split
  · next h100 =>
    have hstep : ∀ X : List Char,
        (if 100 < X.length then pyStrip (X.take 100) else X).length ≤ 100 := by
      intro X
      split
      · calc (pyStrip (X.take 100)).length ≤ (X.take 100).length := length_pyStrip_le _
          _ ≤ 100 := by rw [List.length_take]; omega
      · omega
    exact hstep _
  · next h100 => omega

theorem mem_truncateTitle {c : Char} {t : List Char} (h : c ∈ truncateTitle t) : c ∈ t := by
  have hstep : ∀ X : List Char, (∀ d, d ∈ X → d ∈ t) →
      c ∈ (if 100 < X.length then pyStrip (X.take 100) else X) → c ∈ t := by
    intro X hX hc
    split at hc
    · exact hX _ ((List.take_sublist _ _).mem (mem_pyStrip hc))
    · exact hX _ hc
  have htw : ∀ (q : Char → Bool) (d : Char), d ∈ pyStrip (t.takeWhile q) → d ∈ t :=
    fun q d hc => (List.takeWhile_sublist q).mem (mem_pyStrip hc)
  unfold truncateTitle at h
  split at h
  · refine hstep _ ?_ h
    intro d hd
    split at hd
    · exact htw _ _ hd
    · split at hd
      · exact htw _ _ hd
      · split at hd
        · exact htw _ _ hd
        · split at hd
          · exact htw _ _ hd
          · exact hd
  · exact h

theorem pyStrip_truncateTitle {t : List Char} (ht : pyStrip t = t) :
    pyStrip (truncateTitle t) = truncateTitle t := by
  have hstep : ∀ X : List Char, pyStrip X = X →
      pyStrip (if 100 < X.length then pyStrip (X.take 100) else X) =
        (if 100 < X.length then pyStrip (X.take 100) else X) := by
    intro X hX
    split
    · exact pyStrip_idem _
    · exact hX
  unfold truncateTitle
  split
  · refine hstep _ ?_
    split
    · exact pyStrip_idem _
    · split
      · exact pyStrip_idem _
      · split
        · exact pyStrip_idem _
        · split
          · exact pyStrip_idem _
          · exact ht
  · exact ht

/-- The well-formedness of a stored section title: stripped, at most 100
characters, and newline-free. -/
theorem newSection_title_good (k : Nat) (raw : List Char) (hnl : '\n' ∉ raw) :
    pyStrip (newSection k raw).title = (newSection k raw).title ∧
    (newSection k raw).title.length ≤ 100 ∧ '\n' ∉ (newSection k raw).title := by
  refine ⟨pyStrip_truncateTitle (pyStrip_idem raw), truncateTitle_length_le _, ?_⟩
  intro hmem
  exact hnl (mem_pyStrip (mem_truncateTitle hmem))

theorem splitOnNl_ne_nil (t : List Char) : splitOnNl t ≠ [] := by
  induction t with
  | nil => simp [splitOnNl]
  | cons c cs ih =>
    unfold splitOnNl
    split
    · simp
    · split
      · simp
      · simp

theorem splitOnNl_no_nl {t : List Char} : ∀ l ∈ splitOnNl t, '\n' ∉ l := by
  induction t with
  | nil =>
    intro l hl
    simp [splitOnNl] at hl
    simp [hl]
  | cons c cs ih =>
    intro l hl
    unfold splitOnNl at hl
    split at hl
    · rcases List.mem_cons.mp hl with h | h
      · simp [h]
      · exact ih l h
    · next hc =>
      split at hl
      · next heq =>
        exact absurd heq (splitOnNl_ne_nil cs)
      · next x xs heq =>
        rcases List.mem_cons.mp hl with h | h
        · subst h
          intro hmem
          rcases List.mem_cons.mp hmem with h2 | h2
          · exact hc h2.symm
          · exact ih x (heq ▸ List.mem_cons_self x xs) h2
        · exact ih l (heq ▸ List.mem_cons_of_mem x h)

theorem parseLines_map_level (ls : List (List Char)) :
    ∀ (acc : List (List Char)),
      ((parseLines ls none acc).map (fun s => s.level) = headingLevels ls) ∧
      (∀ c : NavigationSection,
        (parseLines ls (some c) acc).map (fun s => s.level) = c.level :: headingLevels ls) := by
  induction ls with
  | nil =>
    intro acc
    refine ⟨by simp [parseLines, headingLevels], fun c => ?_⟩
    simp [parseLines, headingLevels, closeSection]
  | cons l ls ih =>
    intro acc
    by_cases hb : (pyStrip l).isEmpty
    · have hnone : pyHeadingMatch (pyStrip l) = none := by
        rw [List.isEmpty_iff] at hb
        rw [hb, pyHeadingMatch_nil]
      have hH : headingLevels (l :: ls) = headingLevels ls := by
        simp [headingLevels, hnone]
      refine ⟨?_, fun c => ?_⟩
      · rw [show parseLines (l :: ls) none acc = parseLines ls none acc from by
          simp [parseLines, hb]]
        rw [(ih acc).1, hH]
      · rw [show parseLines (l :: ls) (some c) acc = parseLines ls (some c) acc from by
          simp [parseLines, hb]]
        rw [(ih acc).2 c, hH]
    · cases hm : pyHeadingMatch (pyStrip l) with
      | some kt =>
        obtain ⟨k, raw⟩ := kt
        have hH : headingLevels (l :: ls) = k :: headingLevels ls := by
          simp [headingLevels, hm]
        have hlev : (newSection k raw).level = k := rfl
        refine ⟨?_, fun c => ?_⟩
        · rw [show parseLines (l :: ls) none acc = parseLines ls (some (newSection k raw)) [] from by
            simp [parseLines, hb, hm]]
          rw [(ih []).2 (newSection k raw), hH, hlev]
        · rw [show parseLines (l :: ls) (some c) acc =
              closeSection c acc :: parseLines ls (some (newSection k raw)) [] from by
            simp [parseLines, hb, hm]]
          rw [List.map_cons, (ih []).2 (newSection k raw), hH, hlev]
          rfl
      | none =>
        have hH : headingLevels (l :: ls) = headingLevels ls := by
          simp [headingLevels, hm]
        refine ⟨?_, fun c => ?_⟩
        · rw [show parseLines (l :: ls) none acc = parseLines ls none acc from by
            simp [parseLines, hb, hm]]
          rw [(ih acc).1, hH]
        · rw [show parseLines (l :: ls) (some c) acc =
              parseLines ls (some c) (acc ++ [pyStrip l]) from by
            simp [parseLines, hb, hm]]
          rw [(ih (acc ++ [pyStrip l])).2 c, hH]

theorem parseLines_title_good (ls : List (List Char)) :
    ∀ (acc : List (List Char)) (cur : Option NavigationSection),
      (∀ l ∈ ls, '\n' ∉ l) →
      (∀ c, cur = some c →
        pyStrip c.title = c.title ∧ c.title.length ≤ 100 ∧ '\n' ∉ c.title) →
      ∀ s ∈ parseLines ls cur acc,
        pyStrip s.title = s.title ∧ s.title.length ≤ 100 ∧ '\n' ∉ s.title := by
  induction ls with
  | nil =>
    intro acc cur hls hcur s hs
    cases cur with
    | none => simp [parseLines] at hs
    | some c =>
      simp [parseLines] at hs
      subst hs
      exact hcur c rfl
  | cons l ls ih =>
    intro acc cur hls hcur s hs
    have hls' : ∀ x ∈ ls, '\n' ∉ x := fun x hx => hls x (List.mem_cons_of_mem l hx)
    by_cases hb : (pyStrip l).isEmpty
    · cases cur with
      | none =>
        rw [show parseLines (l :: ls) none acc = parseLines ls none acc from by
          simp [parseLines, hb]] at hs
        exact ih acc none hls' hcur s hs
      | some c =>
        rw [show parseLines (l :: ls) (some c) acc = parseLines ls (some c) acc from by
          simp [parseLines, hb]] at hs
        exact ih acc (some c) hls' hcur s hs
    · cases hm : pyHeadingMatch (pyStrip l) with
      | some kt =>
        obtain ⟨k, raw⟩ := kt
        have hrawnl : '\n' ∉ raw := by
          apply pyHeadingMatch_no_nl hm
          intro hmem
          exact hls l (List.mem_cons_self l ls) (mem_pyStrip hmem)
        have hnew := newSection_title_good k raw hrawnl
        cases cur with
        | none =>
          rw [show parseLines (l :: ls) none acc =
              parseLines ls (some (newSection k raw)) [] from by
            simp [parseLines, hb, hm]] at hs
          exact ih [] (some (newSection k raw)) hls'
            (fun c hc => by rw [← Option.some_inj.mp hc]; exact hnew) s hs
        | some c =>
          rw [show parseLines (l :: ls) (some c) acc =
              closeSection c acc :: parseLines ls (some (newSection k raw)) [] from by
            simp [parseLines, hb, hm]] at hs
          rcases List.mem_cons.mp hs with h | h
          · subst h
            exact hcur c rfl
          · exact ih [] (some (newSection k raw)) hls'
              (fun c' hc => by rw [← Option.some_inj.mp hc]; exact hnew) s h
      | none =>
        cases cur with
        | none =>
          rw [show parseLines (l :: ls) none acc = parseLines ls none acc from by
            simp [parseLines, hb, hm]] at hs
          exact ih acc none hls' hcur s hs
        | some c =>
          rw [show parseLines (l :: ls) (some c) acc =
              parseLines ls (some c) (acc ++ [pyStrip l]) from by
            simp [parseLines, hb, hm]] at hs
          exact ih (acc ++ [pyStrip l]) (some c) hls' hcur s hs

theorem segLines_cons_blank {l : List Char} {ls : List (List Char)}
    (hb : (pyStrip l).isEmpty) : segLines (l :: ls) = segLines ls := by
  have hns : nonStart l = true := by
    rw [List.isEmpty_iff] at hb
    simp [nonStart, hb, pyHeadingMatch_nil]
  simp [segLines, List.takeWhile_cons, hns, hb]

theorem segLines_cons_heading {l : List Char} {ls : List (List Char)}
    (hns : nonStart l = false) : segLines (l :: ls) = [] := by
  simp [segLines, List.takeWhile_cons, hns]

theorem segLines_cons_content {l : List Char} {ls : List (List Char)}
    (hb : ¬(pyStrip l).isEmpty) (hns : nonStart l = true) :
    segLines (l :: ls) = pyStrip l :: segLines ls := by
  simp [segLines, List.takeWhile_cons, hns, hb]

theorem parseLines_map_content (ls : List (List Char)) :
    ∀ (acc : List (List Char)),
      ((parseLines ls none acc).map (fun s => s.content) = bodies ls) ∧
      (∀ c : NavigationSection,
        (parseLines ls (some c) acc).map (fun s => s.content) =
          pyStrip (List.intercalate ['\n'] (acc ++ segLines ls)) ::
            bodies (ls.dropWhile nonStart)) := by
  induction ls with
  | nil =>
    intro acc
    refine ⟨by simp [parseLines, bodies], fun c => ?_⟩
    simp [parseLines, closeSection, segLines, bodies]
  | cons l ls ih =>
    intro acc
    by_cases hb : (pyStrip l).isEmpty
    · have hns : nonStart l = true := by
        rw [List.isEmpty_iff] at hb
        simp [nonStart, hb, pyHeadingMatch_nil]
      have hbody : bodies (l :: ls) = bodies ls := by
        rw [bodies]
        simp [hns]
      have hdw : (l :: ls).dropWhile nonStart = ls.dropWhile nonStart := by
        rw [List.dropWhile_cons, if_pos hns]
      refine ⟨?_, fun c => ?_⟩
      · rw [show parseLines (l :: ls) none acc = parseLines ls none acc from by
          simp [parseLines, hb]]
        rw [(ih acc).1, hbody]
      · rw [show parseLines (l :: ls) (some c) acc = parseLines ls (some c) acc from by
          simp [parseLines, hb]]
        rw [(ih acc).2 c, segLines_cons_blank hb, hdw]
    · cases hm : pyHeadingMatch (pyStrip l) with
      | some kt =>
        obtain ⟨k, raw⟩ := kt
        have hns : nonStart l = false := by
          simp [nonStart, hm]
        have hdw : (l :: ls).dropWhile nonStart = l :: ls := by
          rw [List.dropWhile_cons, if_neg (by simp [hns])]
        have hbody : bodies (l :: ls) =
            pyStrip (List.intercalate ['\n'] (segLines ls)) ::
              bodies (ls.dropWhile nonStart) := by
          rw [bodies]
          simp [hns]
        refine ⟨?_, fun c => ?_⟩
        · rw [show parseLines (l :: ls) none acc =
              parseLines ls (some (newSection k raw)) [] from by
            simp [parseLines, hb, hm]]
          rw [(ih []).2 (newSection k raw), hbody]
          simp
        · rw [show parseLines (l :: ls) (some c) acc =
              closeSection c acc :: parseLines ls (some (newSection k raw)) [] from by
            simp [parseLines, hb, hm]]
          rw [List.map_cons, (ih []).2 (newSection k raw)]
          rw [segLines_cons_heading hns, hdw, hbody]
          simp [closeSection]
      | none =>
        have hns : nonStart l = true := by
          simp [nonStart, hm]
        have hbody : bodies (l :: ls) = bodies ls := by
          rw [bodies]
          simp [hns]
        have hdw : (l :: ls).dropWhile nonStart = ls.dropWhile nonStart := by
          rw [List.dropWhile_cons, if_pos hns]
        refine ⟨?_, fun c => ?_⟩
        · rw [show parseLines (l :: ls) none acc = parseLines ls none acc from by
            simp [parseLines, hb, hm]]
          rw [(ih acc).1, hbody]
        · rw [show parseLines (l :: ls) (some c) acc =
              parseLines ls (some c) (acc ++ [pyStrip l]) from by
            simp [parseLines, hb, hm]]
          rw [(ih (acc ++ [pyStrip l])).2 c, segLines_cons_content hb hns, hdw]
          rw [List.append_assoc]
          rfl

theorem parseContent_map_level (text : List Char) :
    (parseContent text).map (fun s => s.level) = headingLevels (splitOnNl text) :=
  (parseLines_map_level (splitOnNl text) []).1

theorem parseContent_title_good (text : List Char) :
    ∀ s ∈ parseContent text,
      pyStrip s.title = s.title ∧ s.title.length ≤ 100 ∧ '\n' ∉ s.title :=
  parseLines_title_good (splitOnNl text) [] none (fun l hl => splitOnNl_no_nl l hl)
    (fun c hc => absurd hc (by simp))

theorem parseContent_map_content (text : List Char) :
    (parseContent text).map (fun s => s.content) = bodies (splitOnNl text) :=
  (parseLines_map_content (splitOnNl text) []).1

theorem headingLevels_pos {ls : List (List Char)} {k : Nat}
    (h : k ∈ headingLevels ls) : 1 ≤ k := by
  rw [headingLevels, List.mem_filterMap] at h
  obtain ⟨l, _, hl⟩ := h
  rw [Option.map_eq_some'] at hl
  obtain ⟨⟨k', t⟩, hm, hk⟩ := hl
  rw [← hk]
  exact pyHeadingMatch_pos hm

/-- C2 (counterexample): a line with seven hash markers starts a section
whose level is 7, outside the 1..6 range the claim asserts. -/
theorem claim_C2_counterexample :
    ((parseContent ("####### Seven".toList)).map (fun s => s.level) = [7]) ∧ ¬(7 ≤ 6) := by
  decide

/-- C2 (amended): a new section is started exactly by the stripped lines
matching the unbounded-marker pattern of the source regex; the levels of
the parsed sections are, in order, the marker counts of those lines, and
every level is at least 1 (levels above 6 are possible). -/
theorem claim_C2_amended (text : List Char) :
    (parseContent text).map (fun s => s.level) = headingLevels (splitOnNl text) ∧
    ∀ s ∈ parseContent text, 1 ≤ s.level := by
  refine ⟨parseContent_map_level text, fun s hs => ?_⟩
  have hmem : s.level ∈ headingLevels (splitOnNl text) := by
    rw [← parseContent_map_level text]
    exact List.mem_map_of_mem (fun s => s.level) hs
  exact headingLevels_pos hmem

/-- C2 (witness). -/
theorem claim_C2_witness :
    (parseContent ("# A\nx".toList)).map (fun s => s.level) =
      headingLevels (splitOnNl ("# A\nx".toList)) ∧
    ∀ s ∈ parseContent ("# A\nx".toList), 1 ≤ s.level :=
  claim_C2_amended ("# A\nx".toList)

/-- C7: every stored section title has at most 100 characters and
contains no raw newline. -/
theorem claim_C7_title_invariant (text : List Char) :
    ∀ s ∈ parseContent text, s.title.length ≤ 100 ∧ '\n' ∉ s.title :=
  fun s hs => (parseContent_title_good text s hs).2

/-- C7 (witness). -/
theorem claim_C7_witness :
    (⟨"Hello".toList, 1, [], "hello.md".toList⟩ : NavigationSection).title.length ≤ 100 ∧
    '\n' ∉ (⟨"Hello".toList, 1, [], "hello.md".toList⟩ : NavigationSection).title :=
  claim_C7_title_invariant ("# Hello".toList) _ (by decide)

/-- C8 (counterexample): the parse loop strips each content line, so for
the input "# T\na  \nb" the stored content is "a\nb", not the
whole-trimmed verbatim join "a  \nb" the claim predicts. -/
theorem claim_C8_counterexample :
    ((parseContent ("# T\na  \nb".toList)).map (fun s => s.content) = ["a\nb".toList]) ∧
    (parseContent ("# T\na  \nb".toList)).map (fun s => s.content) ≠
      [pyStrip (List.intercalate ['\n'] ["a  ".toList, "b".toList])] := by
  decide

/-- C8 (amended): lines before the first heading are discarded; blank
lines are always skipped, inside and outside content accumulation; each
remaining non-heading line is stripped of leading and trailing
whitespace and appended to the open section; a section's content is the
newline-join of those stripped lines, trimmed as a whole. -/
theorem claim_C8_amended (text : List Char) :
    (parseContent text).map (fun s => s.content) = bodies (splitOnNl text) :=
  parseContent_map_content text

theorem toNat_charOfNat {n : Nat} (h : n.isValidChar) : (Char.ofNat n).toNat = n := by
  unfold Char.ofNat
  rw [dif_pos h]
  unfold Char.ofNatAux
  have hlt : n < 2 ^ 32 := by
    rcases h with h | h
    · omega
    · omega
  simp [Char.toNat, UInt32.toNat, BitVec.toNat_ofNat]

theorem char_le_iff_toNat {a b : Char} : a ≤ b ↔ a.toNat ≤ b.toNat := Iff.rfl

theorem toLower_amended {c : Char} (h : isWordChar c = true) :
    amendedSlugChar (Char.toLower c) = true := by
  rw [isWordChar, Bool.or_eq_true, Bool.or_eq_true] at h
  by_cases hc : 65 ≤ c.toNat ∧ c.toNat ≤ 90
  · have hval : (c.toNat + 32).isValidChar := Or.inl (by omega)
    have htln : (Char.toLower c).toNat = c.toNat + 32 := by
      unfold Char.toLower
      rw [if_pos hc]
      exact toNat_charOfNat hval
    have h1 : 'a' ≤ Char.toLower c := by
      rw [char_le_iff_toNat, htln]
      show 97 ≤ c.toNat + 32
      omega
    have h2 : Char.toLower c ≤ 'z' := by
      rw [char_le_iff_toNat, htln]
      show c.toNat + 32 ≤ 122
      omega
    simp [amendedSlugChar, claimedSlugChar]
    exact Or.inl (Or.inl (Or.inl ⟨h1, h2⟩))
  · have hid : Char.toLower c = c := by
      unfold Char.toLower
      rw [if_neg]
      intro hcc
      exact hc ⟨hcc.1, hcc.2⟩
    rw [hid]
    rcases h with (ha | hd) | hu
    · rw [Char.isAlpha, Bool.or_eq_true] at ha
      rcases ha with hA | hB
      · rw [Char.isUpper] at hA
        simp only [Bool.and_eq_true, decide_eq_true_eq] at hA
        have hA1 : 65 ≤ c.toNat := hA.1
        have hA2 : c.toNat ≤ 90 := hA.2
        exact absurd ⟨hA1, hA2⟩ hc
      · rw [Char.isLower] at hB
        simp only [Bool.and_eq_true, decide_eq_true_eq] at hB
        have hB1 : 97 ≤ c.toNat := hB.1
        have hB2 : c.toNat ≤ 122 := hB.2
        simp [amendedSlugChar, claimedSlugChar]
        exact Or.inl (Or.inl (Or.inl ⟨hB1, hB2⟩))
    · rw [Char.isDigit] at hd
      simp only [Bool.and_eq_true, decide_eq_true_eq] at hd
      have hd1 : 48 ≤ c.toNat := hd.1
      have hd2 : c.toNat ≤ 57 := hd.2
      simp [amendedSlugChar, claimedSlugChar]
      exact Or.inl (Or.inl (Or.inr ⟨hd1, hd2⟩))
    · simp at hu
      subst hu
      decide

theorem mem_collapseHyphens {c : Char} :
    ∀ (b : Bool) (l : List Char), c ∈ collapseHyphens b l →
      c = '-' ∨ (c ∈ l ∧ (decide (c = '-') || isPySpace c) = false) := by
  intro b l
  induction l generalizing b with
  | nil => intro h; simp [collapseHyphens] at h
  | cons a as ih =>
    intro h
    rw [collapseHyphens] at h
    split at h
    · split at h
      · rcases ih _ h with h1 | h1
        · exact Or.inl h1
        · exact Or.inr ⟨List.mem_cons_of_mem a h1.1, h1.2⟩
      · rcases List.mem_cons.mp h with h1 | h1
        · exact Or.inl h1
        · rcases ih _ h1 with h2 | h2
          · exact Or.inl h2
          · exact Or.inr ⟨List.mem_cons_of_mem a h2.1, h2.2⟩
    · next hns =>
      rcases List.mem_cons.mp h with h1 | h1
      · subst h1
        refine Or.inr ⟨List.mem_cons_self c as, ?_⟩
        simpa using hns
      · rcases ih _ h1 with h2 | h2
        · exact Or.inl h2
        · exact Or.inr ⟨List.mem_cons_of_mem a h2.1, h2.2⟩

theorem mem_stripDashes {c : Char} {l : List Char} (h : c ∈ stripDashes l) : c ∈ l := by
  unfold stripDashes at h
  rw [List.mem_reverse] at h
  have h2 := (List.dropWhile_sublist (fun c => c = '-')).mem h
  rw [List.mem_reverse] at h2
  exact (List.dropWhile_sublist (fun c => c = '-')).mem h2

theorem mem_cleanFilename {c : Char} {t : List Char} (h : c ∈ cleanFilename t) :
    amendedSlugChar c = true := by
  dsimp only [cleanFilename] at h
  split at h
  · have hall : ("section".toList).all amendedSlugChar = true := by decide
    rw [List.all_eq_true] at hall
    exact hall c h
  · rw [List.mem_map] at h
    obtain ⟨d, hd, hdc⟩ := h
    have hd2 := mem_stripDashes hd
    rcases mem_collapseHyphens false _ hd2 with h1 | h1
    · rw [← hdc, h1]
      decide
    · have hd3 := List.mem_filter.mp h1.1
      have hcond := hd3.2
      have hfalse := h1.2
      rw [Bool.or_eq_false_iff] at hfalse
      rw [Bool.or_eq_true, Bool.or_eq_true] at hcond
      have hword : isWordChar d = true := by
        rcases hcond with (hw | hs) | hh
        · exact hw
        · rw [hs] at hfalse
          exact absurd hfalse.2 (by simp)
        · rw [hh] at hfalse
          exact absurd hfalse.1 (by simp)
      rw [← hdc]
      exact toLower_amended hword

theorem cleanFilename_ne_nil (t : List Char) : cleanFilename t ≠ [] := by
  dsimp only [cleanFilename]
  split
  · decide
  · next h =>
    intro hnil
    rw [hnil] at h
    exact h rfl

theorem startsWithL_mem : ∀ (p l : List Char), startsWithL p l = true → ∀ c ∈ p, c ∈ l
  | [], _, _ => by intro c hc; simp at hc
  | a :: as, [], h => by simp [startsWithL] at h
  | a :: as, b :: bs, h => by
    rw [show startsWithL (a :: as) (b :: bs) = (decide (a = b) && startsWithL as bs) from rfl,
      Bool.and_eq_true] at h
    intro c hc
    rcases List.mem_cons.mp hc with h1 | h1
    · subst h1
      have hab : c = b := by simpa using h.1
      rw [hab]
      exact List.mem_cons_self b bs
    · exact List.mem_cons_of_mem b (startsWithL_mem as bs h.2 c h1)

theorem endsWith_cleanFilename_false (t : List Char) :
    endsWithL (".md".toList) (cleanFilename t) = false := by
  by_contra hne
  have h : endsWithL (".md".toList) (cleanFilename t) = true := by
    cases hval : endsWithL (".md".toList) (cleanFilename t)
    · exact absurd hval hne
    · rfl
  rw [endsWithL] at h
  have hdot : '.' ∈ (cleanFilename t).reverse :=
    startsWithL_mem _ _ h '.' (by decide)
  rw [List.mem_reverse] at hdot
  have := mem_cleanFilename hdot
  rw [show amendedSlugChar '.' = false from by decide] at this
  exact Bool.false_ne_true this

theorem generateFilePath_level1 (title template : List Char) :
    generateFilePath title 1 template =
      cleanFilename (gfpCleanTitle title) ++ (".md".toList) := by
  dsimp only [generateFilePath]
  rw [if_pos rfl, endsWith_cleanFilename_false]
  rw [if_neg (by decide)]

/-- C3 (counterexample): the Python class `\w` keeps underscores, so the
title "a_b" produces the path "a_b.md", whose pre-extension portion
contains a character outside the claimed set `[a-z0-9-]`. -/
theorem claim_C3_counterexample :
    generateFilePath ("a_b".toList) 1 ("standard_docs".toList) = "a_b.md".toList ∧
    claimedSlugChar '_' = false := by
  decide

/-- C3 (amended): for every title, the level-1 path is a non-empty slug
followed by ".md"; every slug character lies in `[a-z0-9_-]`, the
claimed set plus underscore (for titles made of ASCII characters, which
is what the embedding models); and a title whose slug would be empty
defaults to the literal "section". -/
theorem claim_C3_amended (title template : List Char) :
    (∃ slug, generateFilePath title 1 template = slug ++ (".md".toList) ∧
      slug ≠ [] ∧ ∀ c ∈ slug, amendedSlugChar c = true) ∧
    generateFilePath ("!!!".toList) 1 ("standard_docs".toList) = "section.md".toList := by
  refine ⟨⟨cleanFilename (gfpCleanTitle title), generateFilePath_level1 title template,
    cleanFilename_ne_nil _, fun c hc => mem_cleanFilename hc⟩, by decide⟩

/-- C5: the template classifier is a first-match-wins keyword rule over
the space-joined lowercased titles, and the single level-1 section
titled "API Reference Guide" selects "technical_docs". -/
theorem claim_C5_suggest_template :
    (∀ sections : List NavigationSection,
      ((["api".toList, "reference".toList, "technical".toList, "code".toList].any
          (fun w => subList w (joinedTitles sections)) = true) →
        suggestTemplate sections = "technical_docs".toList) ∧
      ((["api".toList, "reference".toList, "technical".toList, "code".toList].any
          (fun w => subList w (joinedTitles sections)) = false) →
        (["team".toList, "process".toList, "project".toList, "goals".toList].any
          (fun w => subList w (joinedTitles sections)) = true) →
        suggestTemplate sections = "project_docs".toList) ∧
      ((["api".toList, "reference".toList, "technical".toList, "code".toList].any
          (fun w => subList w (joinedTitles sections)) = false) →
        (["team".toList, "process".toList, "project".toList, "goals".toList].any
          (fun w => subList w (joinedTitles sections)) = false) →
        suggestTemplate sections = "standard_docs".toList)) ∧
    suggestTemplate
        [⟨"API Reference Guide".toList, 1, [], "api-reference-guide.md".toList⟩] =
      "technical_docs".toList := by
  refine ⟨fun sections => ⟨fun h1 => ?_, fun h1 h2 => ?_, fun h1 h2 => ?_⟩, by decide⟩
  · rw [suggestTemplate, if_pos h1]
  · rw [suggestTemplate, if_neg (by simp at h1 ⊢; exact h1), if_pos h2]
  · rw [suggestTemplate, if_neg (by simp at h1 ⊢; exact h1),
      if_neg (by simp at h2 ⊢; exact h2)]

/-- C5 (witness). -/
theorem claim_C5_witness : suggestTemplate [] = "standard_docs".toList :=
  ((claim_C5_suggest_template.1 []).2.2 (by decide) (by decide))

/-- C6 (counterexample): for the input "nav:x" the first non-empty line
trimmed is "nav:x", not "nav:", yet validation passes, because the code
only requires the first raw line to start with "nav:". -/
theorem claim_C6_counterexample :
    (validateNavigation ("nav:x".toList)).is_valid = true ∧
    pyStrip (firstNonBlankLine ("nav:x".toList)) ≠ "nav:".toList := by
  decide

/-- C6 (amended): validation reports an invalid structure, with the
single error naming the required "nav:" header, exactly when the first
line of the text (not the first non-empty one), after stripping, does
not start with "nav:"; as a total function the validator never
raises. -/
theorem claim_C6_amended (tx : List Char) :
    ((validateNavigation tx).is_valid = false ↔
      startsWithL ("nav:".toList) (pyStrip ((splitOnNl tx).headD [])) = false) ∧
    ((validateNavigation tx).is_valid = false →
      (validateNavigation tx).errors =
        ["Navigation must start with \x27nav:\x27".toList]) ∧
    ((validateNavigation tx).is_valid = true → (validateNavigation tx).errors = []) := by
  cases hcond : startsWithL ("nav:".toList) (pyStrip ((splitOnNl tx).headD [])) with
  | true =>
    refine ⟨?_, ?_, ?_⟩ <;> (simp only [validateNavigation]; rw [hcond]; simp)
  | false =>
    refine ⟨?_, ?_, ?_⟩ <;> (simp only [validateNavigation]; rw [hcond]; simp)

/-- C6 (witness). -/
theorem claim_C6_witness :
    (validateNavigation ("x".toList)).is_valid = false ∧
    (validateNavigation ("x".toList)).errors =
      ["Navigation must start with \x27nav:\x27".toList] := by
  have h := claim_C6_amended ("x".toList)
  have hinv : (validateNavigation ("x".toList)).is_valid = false := h.1.mpr (by decide)
  exact ⟨hinv, h.2.1 hinv⟩

theorem length_filterMap_count {α β : Type} (f : α → Option β) (ls : List α) :
    (ls.filterMap f).length = ls.countP (fun a => (f a).isSome) := by
  induction ls with
  | nil => simp
  | cons a as ih =>
    rw [List.filterMap_cons, List.countP_cons]
    cases hf : f a
    · simp [hf, ih]
    · simp [hf, ih]

theorem extractMetadata_total (content : List Char) :
    (extractMetadata content).total_sections =
      (splitOnNl content).countP (fun l => (pyMetaHeadingMatch (pyStrip l)).isSome) := by
  have h : ∀ (ls : List (List Char)) (p : Nat × Nat),
      (ls.foldl (fun (p : Nat × Nat) l =>
        match pyMetaHeadingMatch (pyStrip l) with
        | some (g, _) => (p.1 + 1, max p.2 g)
        | none => p) p).1 =
      p.1 + ls.countP (fun l => (pyMetaHeadingMatch (pyStrip l)).isSome) := by
    intro ls
    induction ls with
    | nil => intro p; simp
    | cons l ls ih =>
      intro p
      rw [List.foldl_cons, List.countP_cons]
      cases hm : pyMetaHeadingMatch (pyStrip l) with
      | none =>
        simp only [hm]
        rw [ih]
        simp [hm]
      | some gt =>
        obtain ⟨g, t⟩ := gt
        simp only [hm]
        rw [ih]
        simp [hm]
        omega
  exact (h (splitOnNl content) (0, 0)).trans (Nat.zero_add _)

theorem parseContent_length_count (text : List Char) :
    (parseContent text).length =
      (splitOnNl text).countP (fun l => (pyHeadingMatch (pyStrip l)).isSome) := by
  have h1 : (parseContent text).length =
      ((parseContent text).map (fun s => s.level)).length := by simp
  rw [h1, parseContent_map_level, headingLevels, length_filterMap_count]
  apply List.countP_congr
  intro l _
  cases hm : pyHeadingMatch (pyStrip l)
  · simp [hm]
  · simp [hm]

theorem heading_isSome_meta {l : List Char}
    (h : (pyHeadingMatch l).isSome = true) : (pyMetaHeadingMatch l).isSome = true := by
  dsimp only [pyHeadingMatch] at h
  dsimp only [pyMetaHeadingMatch]
  split at h
  · simp at h
  · next hk =>
    rw [if_neg hk]
    split
    · simp
    · split at h
      · simp at h
      · next c rest hr =>
        rw [hr]
        split
        · simp
        · simp

/-- C10: the metadata heading count dominates the number of parsed
sections (the metadata regex makes the whitespace after the markers
optional, the section regex does not), the page estimate is
`max 1 (total_sections / 3)`, and the gap is strict for "#Title". -/
theorem claim_C10_metadata_bounds (content : List Char) :
    (parseContent content).length ≤ (extractMetadata content).total_sections ∧
    (extractMetadata content).estimated_pages =
      max 1 ((extractMetadata content).total_sections / 3) ∧
    (parseContent ("#Title".toList)).length <
      (extractMetadata ("#Title".toList)).total_sections := by
  refine ⟨?_, rfl, by decide⟩
  rw [parseContent_length_count, extractMetadata_total]
  apply List.countP_mono_left
  intro l _
  exact heading_isSome_meta

theorem lookup_assocSet (l : List (List Char × TemplateData)) (n : List Char) (t : TemplateData) :
    (assocSet l n t).lookup n = some t := by
  induction l with
  | nil => simp [assocSet, List.lookup]
  | cons kv rest ih =>
    obtain ⟨k, v⟩ := kv
    rw [assocSet]
    split
    · next hk =>
      have hkn : k = n := by simpa using hk
      simp [List.lookup, hkn]
    · next hk =>
      have hkn : ¬(n == k) = true := by
        intro hnk
        apply hk
        have : n = k := by simpa using hnk
        simp [this]
      simp only [List.lookup]
      rw [Bool.not_eq_true] at hkn
      rw [hkn]
      exact ih

/-- C9 (counterexample): a profile carrying every required top-level,
structure and formatting key is still rejected (returning False, with
the registry unchanged) when its "sections" value is not a list, and no
exception reaches the caller. -/
theorem claim_C9_counterexample :
    validateTemplate
        ⟨requiredTemplateKeys, requiredStructureKeys, false, requiredFormattingKeys⟩ = false ∧
    (∀ k ∈ requiredTemplateKeys,
      (⟨requiredTemplateKeys, requiredStructureKeys, false,
        requiredFormattingKeys⟩ : TemplateData).topKeys.contains k = true) ∧
    createCustomTemplate defaultTemplateEngine ("custom".toList)
        ⟨requiredTemplateKeys, requiredStructureKeys, false, requiredFormattingKeys⟩ =
      (defaultTemplateEngine, false) := by
  decide

/-- C9 (amended): validation accepts a profile exactly when all required
top-level keys, structure sub-keys and formatting sub-keys are present
and the sections value is a list; a rejected profile makes
create_custom_template return False (no exception) with the engine
unchanged; an accepted profile is registered and afterwards retrievable
through get_template under its name. -/
theorem claim_C9_amended (e : TemplateEngine) (name : List Char) (t : TemplateData) :
    (validateTemplate t = true ↔
      ((∀ k ∈ requiredTemplateKeys, t.topKeys.contains k = true) ∧
       (∀ k ∈ requiredStructureKeys, t.structureKeys.contains k = true) ∧
       t.sectionsIsList = true ∧
       (∀ k ∈ requiredFormattingKeys, t.formattingKeys.contains k = true))) ∧
    (validateTemplate t = false → createCustomTemplate e name t = (e, false)) ∧
    (validateTemplate t = true →
      (createCustomTemplate e name t).2 = true ∧
      getTemplate (createCustomTemplate e name t).1 name = t) := by
  refine ⟨?_, fun hv => ?_, fun hv => ?_⟩
  · simp [validateTemplate, List.all_eq_true, and_assoc]
  · rw [createCustomTemplate, if_neg (by simp [hv])]
  · rw [createCustomTemplate, if_pos hv]
    refine ⟨rfl, ?_⟩
    have hl : (({ e with custom_templates := assocSet e.custom_templates name t } :
        TemplateEngine).custom_templates).lookup name = some t :=
      lookup_assocSet e.custom_templates name t
    simp [getTemplate, hl]

/-- C9 (witness). -/
theorem claim_C9_witness :
    (createCustomTemplate defaultTemplateEngine ("custom".toList) standardDocsTemplate).2 = true ∧
    getTemplate (createCustomTemplate defaultTemplateEngine ("custom".toList)
        standardDocsTemplate).1 ("custom".toList) = standardDocsTemplate := by
  have h := claim_C9_amended defaultTemplateEngine ("custom".toList) standardDocsTemplate
  exact h.2.2 (by decide)

theorem filterMap_eq_filter_map {f : NavigationSection → Option NavigationSection}
    {p : NavigationSection → Bool} {g : NavigationSection → NavigationSection}
    (secs : List NavigationSection)
    (h : ∀ s ∈ secs, f s = if p s then some (g s) else none) :
    secs.filterMap f = (secs.filter p).map g := by
  induction secs with
  | nil => simp
  | cons s rest ih =>
    have hs := h s (List.mem_cons_self s rest)
    have hrest : ∀ x ∈ rest, f x = if p x then some (g x) else none :=
      fun x hx => h x (List.mem_cons_of_mem s hx)
    rw [List.filterMap_cons, List.filter_cons]
    cases hp : p s
    · rw [hs, if_neg (by simp [hp])]
      simp only [hp]
      rw [ih hrest]
      simp
    · rw [hs, if_pos (by simp [hp])]
      simp only [hp]
      rw [ih hrest]
      simp

theorem heuristicMain_of_good {s : NavigationSection}
    (hst : pyStrip s.title = s.title) (hnl : '\n' ∉ s.title) :
    heuristicMain s =
      if claimSyntheticPage s then
        some ⟨s.title, 1, s.content, generateFilePath s.title 1 ("standard_docs".toList)⟩
      else none := by
  have hcontains : s.title.contains '\n' = false := by simpa using hnl
  dsimp only [heuristicMain]
  rw [hst, hcontains]
  rw [show claimSyntheticPage s =
    (decide (s.title.length < 50) &&
      !(narrativeWords.any (fun w => subList w (s.title.map Char.toLower)))) from rfl]
  split
  · simp
  · rfl

/-- C4: the emitted manifest is the "nav:" header line followed by one
"  - title: path" line per page, one level deep; the pages are exactly
the level-1 sections, and when none exist, exactly the sections whose
title is under 50 characters and free of the narrative blacklist words
(case-insensitively), in input order. -/
theorem claim_C4_navigation (text : List Char) :
    ((parseContent text).filter (fun s => s.level = 1) ≠ [] →
      generateMkdocsNavigation (parseContent text) =
        List.intercalate ['\n'] ("nav:".toList ::
          ((parseContent text).filter (fun s => s.level = 1)).map navLine)) ∧
    ((parseContent text).filter (fun s => s.level = 1) = [] →
      generateMkdocsNavigation (parseContent text) =
        List.intercalate ['\n'] ("nav:".toList ::
          ((parseContent text).filter claimSyntheticPage).map (fun s =>
            "  - ".toList ++ s.title ++ (':' :: ' ' :: []) ++
              generateFilePath s.title 1 ("standard_docs".toList)))) := by
  constructor
  · intro hne
    have hfalse : ((parseContent text).filter (fun s => s.level = 1)).isEmpty = false :=
      List.isEmpty_eq_false.mpr hne
    dsimp only [generateMkdocsNavigation]
    rw [hfalse]
    rfl
  · intro hempty
    have hall : ∀ s ∈ parseContent text, ¬(s.level = 1) := by
      intro s hs
      have := List.filter_eq_nil_iff.mp hempty s hs
      simpa using this
    have htrue : ((parseContent text).filter (fun s => s.level = 1)).isEmpty = true :=
      List.isEmpty_iff.mpr hempty
    have hfm1 : (parseContent text).filterMap
        (fun s => if s.level = 1 then some (rebuildLevelOne s) else none) = [] := by
      rw [List.filterMap_eq_nil_iff]
      intro s hs
      rw [if_neg (hall s hs)]
    have hIdentify : identifyMainSections (parseContent text) =
        (parseContent text).filterMap heuristicMain := by
      dsimp only [identifyMainSections]
      rw [hfm1]
      rfl
    have hheur : ∀ s ∈ parseContent text, heuristicMain s =
        if claimSyntheticPage s then
          some ⟨s.title, 1, s.content, generateFilePath s.title 1 ("standard_docs".toList)⟩
        else none := by
      intro s hs
      obtain ⟨hst, _, hnl⟩ := parseContent_title_good text s hs
      exact heuristicMain_of_good hst hnl
    dsimp only [generateMkdocsNavigation]
    rw [htrue, if_pos rfl, hIdentify, filterMap_eq_filter_map (parseContent text) hheur,
      List.map_map]
    have hfun : ∀ s ∈ (parseContent text).filter claimSyntheticPage,
        (navLine ∘ fun s => (⟨s.title, 1, s.content,
          generateFilePath s.title 1 ("standard_docs".toList)⟩ : NavigationSection)) s =
        "  - ".toList ++ s.title ++ (':' :: ' ' :: []) ++
          generateFilePath s.title 1 ("standard_docs".toList) := by
      intro s _
      simp [navLine]
    rw [List.map_congr_left hfun]

/-- C4 (witness). -/
theorem claim_C4_witness :
    generateMkdocsNavigation (parseContent ("# A\nbody".toList)) =
      List.intercalate ['\n'] ("nav:".toList ::
        ((parseContent ("# A\nbody".toList)).filter (fun s => s.level = 1)).map navLine) := by
  have h := claim_C4_navigation ("# A\nbody".toList)
  exact h.1 (by decide)

/-- C1: the heading parser splits the six-line document into exactly
three sections with levels 1, 2, 1, titles Home, About, FAQ, and
contents body1, body2, body3, in order. -/
theorem claim_C1_parse_three_sections :
    ((parseContent ("# Home\nbody1\n## About\nbody2\n# FAQ\nbody3".toList)).map
        (fun s => (s.title, s.level, s.content)) =
      [("Home".toList, 1, "body1".toList),
       ("About".toList, 2, "body2".toList),
       ("FAQ".toList, 1, "body3".toList)]) ∧
    (parseContent ("# Home\nbody1\n## About\nbody2\n# FAQ\nbody3".toList)).length = 3 := by
  decide
